import Mathlib

/-!
Verification development for the SPY-Options-Chain backend.

The definitions below are a shallow embedding of
`backend/ibkr_client.py` and `backend/order_manager.py`.  Python floats
are modelled as `PyFloat` (NaN or a rational value), Python dicts keyed
by order id as functions `Nat → Option OrderRecord`, and the gateway
(ib_insync's `IB` object) as an explicit record of the observable calls
made against it (orders placed, orders cancelled, next assigned id),
with qualification results supplied by an oracle `qualifies : Leg → Bool`
since contract qualification is answered by the brokerage.
-/

namespace AlaricIBKR

/-- A Python float: either NaN or an actual (rational) value.  The
backend never produces infinities on the paths modelled here, so they
are not represented. -/
inductive PyFloat where
  | nan : PyFloat
  | val : ℚ → PyFloat
deriving DecidableEq

/-- Python truthiness of a float, as used by `if ticker.marketPrice():`
in `_update_spy_price_async`.  In Python, `bool(float('nan'))` is `True`
and `bool(0.0)` is `False`. -/
def PyFloat.truthy : PyFloat → Bool
  | .nan => true
  | .val q => q != 0

/-- Python `math.isnan`. -/
def PyFloat.isnan : PyFloat → Bool
  | .nan => true
  | .val _ => false

/-- A normalized quote field as stored in `options_data`: either the
string marker `'N/A'` or a numeric price. -/
inductive BidVal where
  | NA : BidVal
  | price : ℚ → BidVal
deriving DecidableEq

/-- Embeds the bid/ask normalization of `_update_options_chain_async`:
`ticker.bid if hasattr(ticker, 'bid') and not math.isnan(ticker.bid) and
ticker.bid != -1 else 'N/A'`.  A raw field of `none` models a ticker
object without the attribute (the `hasattr` guard). -/
def normalizeQuoteField : Option PyFloat → BidVal
  | none => .NA
  | some .nan => .NA
  | some (.val q) => if q = -1 then .NA else .price q

/-- The snapshot `Ticker` returned by the gateway for the SPY stock, as
read by `_update_spy_price_async`.  `last` and `close` are `Option`s so
that a missing attribute (the `hasattr` guards) is representable;
`marketPrice` is a method call on the ticker and is always answerable. -/
structure SpyTicker where
  marketPrice : PyFloat
  last : Option PyFloat
  close : Option PyFloat
deriving DecidableEq

/-- Helper for the `elif hasattr(ticker, f) and not math.isnan(ticker.f)
and ticker.f > 0` guards: the field is present, a real number and
positive. -/
def posVal : Option PyFloat → Option ℚ
  | some (.val q) => if 0 < q then some q else none
  | _ => none

/-- The candidate price computed by `_update_spy_price_async`
(`new_price` in the source): `marketPrice` if truthy, else `last` if
present, non-NaN and positive, else `close` likewise, else the initial
`0.0`. -/
def computeNewPrice (t : SpyTicker) : PyFloat :=
  if t.marketPrice.truthy then t.marketPrice
  else match posVal t.last with
    | some q => .val q
    | none => match posVal t.close with
      | some q => .val q
      | none => .val 0

/-- The price-update step of `_update_spy_price_async`: assign
`spy_price := new_price` when `new_price > 0`, otherwise keep the old
price and log a warning (the returned `Bool` is true when the warning
branch was taken).  Note Python's `nan > 0` is `False`, so a NaN
candidate falls into the warning branch. -/
def update_spy_price (old : ℚ) (t : SpyTicker) : ℚ × Bool :=
  match computeNewPrice t with
  | .nan => (old, true)
  | .val q => if 0 < q then (q, false) else (old, true)

/-- The amended price-selection policy, written from the amended
claim's words for comparison with `update_spy_price`: the update
selects `marketPrice` whenever it is NaN or nonzero; only an
exactly-zero `marketPrice` falls back to `last` (positive, non-NaN),
then to `close` (positive, non-NaN); when the selected candidate is not
a positive number the stored price is left unchanged and a warning is
recorded. -/
def amendedSpyPrice (old : ℚ) (t : SpyTicker) : ℚ × Bool :=
  match t.marketPrice with
  | .nan => (old, true)
  | .val q =>
    if q = 0 then
      match posVal t.last with
      | some r => (r, false)
      | none =>
        match posVal t.close with
        | some r => (r, false)
        | none => (old, true)
    else if 0 < q then (q, false) else (old, true)

/-! ## Strike selection (`_update_options_chain_async`, lines 231-249) -/

/-- Embeds `sorted(list(set(chain.strikes)))`: unique strikes, ascending. -/
def dedupSort (l : List ℚ) : List ℚ :=
  l.dedup.mergeSort (fun a b => a ≤ b)

/-- Python's built-in `abs` on a rational value. -/
def pyAbs (q : ℚ) : ℚ := if q < 0 then -q else q

/-- Python's `min(xs, key=key)` on a non-empty list `x :: xs`: a left
fold that replaces the current best only on a strictly smaller key, so
the first element attaining the minimal key is returned. -/
def pyMinBy (key : ℚ → ℚ) (x : ℚ) (xs : List ℚ) : ℚ :=
  xs.foldl (fun b y => if key y < key b then y else b) x

/-- The at-the-money strike: `min(all_strikes, key=lambda x: abs(x -
self.spy_price))`, with junk value `0` on the empty list (the source
guards with `if not all_strikes: return` first). -/
def atmStrike (all_strikes : List ℚ) (price : ℚ) : ℚ :=
  match all_strikes with
  | [] => 0
  | x :: xs => pyMinBy (fun s => pyAbs (s - price)) x xs

/-- Python's `list.index(a)`: index of the first occurrence (junk value
`length` when absent; the caller handles absence separately). -/
def pyIndex (a : ℚ) : List ℚ → ℕ
  | [] => 0
  | x :: xs => if x = a then 0 else pyIndex a xs + 1

/-- Embeds `all_strikes.index(atm_strike)` with the `except ValueError`
fallback to `len(all_strikes) // 2` (dead in practice since the ATM
strike is an element of the list). -/
def atmIndex (all_strikes : List ℚ) (atm : ℚ) : ℕ :=
  if atm ∈ all_strikes then pyIndex atm all_strikes else all_strikes.length / 2

/-- The cycle's strike window, lines 236-249 of `ibkr_client.py`:
`all_strikes[max(0, i - n) : min(len(all_strikes), i + n + 1)]` where
`i` is the ATM index and `n = strikes_around_atm_count`.  Python's
slice `l[a:b]` (for `0 ≤ a ≤ b`) is `(l.drop a).take (b - a)`; natural
subtraction supplies the `max(0, ·)` clamp. -/
def selectStrikes (all_strikes : List ℚ) (price : ℚ) (n : ℕ) : List ℚ :=
  match all_strikes with
  | [] => []
  | x :: xs =>
    let atm := atmStrike (x :: xs) price
    let i := atmIndex (x :: xs) atm
    let stop := min (x :: xs).length (i + n + 1)
    (((x :: xs).drop (i - n)).take (stop - (i - n)))

/-- The hard-coded `strikes_around_atm_count = 10` of the source. -/
def strikes_around_atm_count : ℕ := 10

/-! ## Options-chain update (`_update_options_chain_async`) -/

/-- A qualified option contract as carried on `ticker.contract`. -/
structure OptContract where
  strike : ℚ
  right : String
  localSymbol : String
deriving DecidableEq

/-- A market-data ticker for an option contract: `ticker.contract` may
be unset (`if not ticker.contract: continue`), and the raw `bid` / `ask`
fields may be missing, NaN, or a sentinel value. -/
structure OptionTicker where
  contract : Option OptContract
  bid : Option PyFloat
  ask : Option PyFloat
deriving DecidableEq

/-- One stored entry of `options_data` (the value dict built at lines
302-308 of `ibkr_client.py`). -/
structure OptionQuote where
  strike : ℚ
  right : String
  bid : BidVal
  ask : BidVal
  localSymbol : String
deriving DecidableEq

/-- The key `f"{strike}_{right}"`, modelled as the pair it formats. -/
abbrev DKey := ℚ × String

/-- Python dict insertion `d[k] = v` on an insertion-ordered
association list: overwrite in place if the key exists, else append. -/
def dictInsert (k : DKey) (v : OptionQuote) : List (DKey × OptionQuote) → List (DKey × OptionQuote)
  | [] => [(k, v)]
  | (k', v') :: rest => if k' = k then (k, v) :: rest else (k', v') :: dictInsert k v rest

/-- The stored quote built from a ticker whose contract populated. -/
def quoteOfTicker (c : OptContract) (t : OptionTicker) : OptionQuote :=
  ⟨c.strike, c.right, normalizeQuoteField t.bid, normalizeQuoteField t.ask, c.localSymbol⟩

/-- The `new_options_data` loop (lines 287-308): skip tickers without a
contract, otherwise insert the normalized quote under `"strike_right"`. -/
def buildOptionsData : List OptionTicker → List (DKey × OptionQuote) → List (DKey × OptionQuote)
  | [], acc => acc
  | t :: ts, acc =>
    match t.contract with
    | none => buildOptionsData ts acc
    | some c => buildOptionsData ts (dictInsert (c.strike, c.right) (quoteOfTicker c t) acc)

/-- The chain parameters chosen from `reqSecDefOptParams` (the source
prefers the SMART-exchange entry; the choice among entries is upstream
of everything modelled here, so the chosen entry is the input). -/
structure ChainParams where
  expirations : List String
  strikes : List ℚ
deriving DecidableEq

/-- The hard-coded target expiry `datetime.datetime(2025, 5, 14)`
formatted as `'%Y%m%d'`. -/
def targetExpiry : String := "20250514"

/-- The mutable fields of `IBKRClient` that the refresh cycle and the
snapshot reader exchange: the last SPY price and the options dict. -/
structure ClientState where
  spy_price : ℚ
  options_data : List (DKey × OptionQuote)
deriving DecidableEq

/-- The state `IBKRClient.__init__` leaves behind: `spy_price = 0.0`,
`options_data` empty. -/
def initState : ClientState := ⟨0, []⟩

/-- The gateway's responses consumed by one options-chain cycle: the
SPY qualification can fail, `reqSecDefOptParams` can return no chains,
or a chain is returned together with a qualification oracle for the
option contracts the cycle builds and the market-data ticker each
qualified contract's `reqMktData` call produces. -/
inductive ChainCycleInput where
  | qualifyFail : ChainCycleInput
  | noChains : ChainCycleInput
  | chain : ChainParams → (ℚ → String → Option OptContract) → (OptContract → OptionTicker) → ChainCycleInput

/-- Embeds `_update_options_chain_async`.  Returns the next client
state together with the list of option contracts for which market data
was requested this cycle (`reqMktData` calls; empty when the cycle
bailed out before the fetch).  Guard order follows the source: not
connected is handled by the caller; `spy_price <= 0` returns untouched;
qualification / chain failures return untouched; a missing 0DTE expiry
clears `options_data` and returns; an empty strike list returns; else
the window is selected, contracts `(strike, right)` for `right ∈ [C,P]`
are built, qualified (failures dropped), fetched and the dict is
rebuilt and swapped in under the lock. -/
def update_options_chain (s : ClientState) (inp : ChainCycleInput) :
    ClientState × List OptContract :=
  if s.spy_price ≤ 0 then (s, [])
  else
    match inp with
    | .qualifyFail => (s, [])
    | .noChains => (s, [])
    | .chain params qual tick =>
      if targetExpiry ∈ params.expirations then
        let all_strikes := dedupSort params.strikes
        if all_strikes = [] then (s, [])
        else
          let selected := selectStrikes all_strikes s.spy_price strikes_around_atm_count
          let contracts := selected.flatMap (fun k => [(k, "C"), (k, "P")])
          if contracts = [] then (s, [])
          else
            let qualified := contracts.filterMap (fun p => qual p.1 p.2)
            let tickers := qualified.map tick
            ({ s with options_data := buildOptionsData tickers [] }, qualified)
      else
        ({ s with options_data := [] }, [])

/-! ## Snapshot read (`get_options_data`) -/

/-- The payload returned by `get_options_data`. -/
structure Payload where
  error : Option String
  spy_price : ℚ
  options : List (DKey × OptionQuote)
deriving DecidableEq

/-- Embeds `get_options_data`: a not-connected client answers an error
payload with price `0.0` and no options; otherwise the current price
and a copy of the dict are read under the lock (with a dedicated
empty-options branch for the "no real data yet" case that returns the
same shape). -/
def get_options_data (connected : Bool) (s : ClientState) : Payload :=
  if connected = false then ⟨some "Not connected to TWS", 0, []⟩
  else if s.options_data = [] ∧ s.spy_price ≤ 0 then ⟨none, s.spy_price, []⟩
  else ⟨none, s.spy_price, s.options_data⟩

/-! ## Reachable client states and the read/update step semantics -/

/-- The price-update step applied to the client state (the only field
`_update_spy_price_async` writes is `spy_price`). -/
def applyPriceUpdate (s : ClientState) (t : SpyTicker) : ClientState :=
  { s with spy_price := (update_spy_price s.spy_price t).1 }

/-- States of `IBKRClient` reachable from construction by any
interleaving of the two refresh sub-steps.  No other code in the
backend writes `spy_price` or `options_data`. -/
inductive Reach : ClientState → Prop where
  | init : Reach initState
  | price {s : ClientState} (t : SpyTicker) : Reach s → Reach (applyPriceUpdate s t)
  | chain {s : ClientState} (inp : ChainCycleInput) : Reach s →
      Reach (update_options_chain s inp).1

/-- An operation against the shared client state, for the small-step
trace semantics: the two refresh writes plus the snapshot read. -/
inductive ClientOp where
  | priceUpdate : SpyTicker → ClientOp
  | chainUpdate : ChainCycleInput → ClientOp
  | readSnapshot : Bool → ClientOp

/-- One step: refresh writes change the state and publish nothing; the
snapshot read (`get_options_data`) copies the fields out under the lock
and leaves the state untouched (the source only ever reads inside the
`with self.options_data_lock:` block of `get_options_data`). -/
def applyOp (s : ClientState) : ClientOp → ClientState × Option Payload
  | .priceUpdate t => (applyPriceUpdate s t, none)
  | .chainUpdate inp => ((update_options_chain s inp).1, none)
  | .readSnapshot c => (s, some (get_options_data c s))

/-! ## The refresh loop (`_update_loop_async_tasks`) -/

/-- What one iteration of the refresh loop observes: the begin-of-cycle
connectivity check fails; or the cycle runs and raises
`ConnectionError`; or the cycle runs and raises some other exception
(logged, skipped); or the cycle completes its updates. -/
inductive CycleObs where
  | disconnected : CycleObs
  | connLost : CycleObs
  | errSkip : CycleObs
  | okUpdate : CycleObs
deriving DecidableEq

/-- How the loop exited. -/
inductive LoopExit where
  | stopped : LoopExit
  | notConnectedBreak : LoopExit
  | connectionErrorBreak : LoopExit
deriving DecidableEq

/-- Embeds the `while self.running:` loop of `_update_loop_async_tasks`
over the finite trace of cycle observations (the trace ends when
`running` is cleared).  Returns the number of completed update cycles
and the exit reason: a cycle that begins with the gateway reporting not
connected immediately `break`s; a `ConnectionError` during the updates
also `break`s; any other exception is logged and the loop continues. -/
def update_loop : List CycleObs → ℕ × LoopExit
  | [] => (0, .stopped)
  | .disconnected :: _ => (0, .notConnectedBreak)
  | .connLost :: _ => (0, .connectionErrorBreak)
  | .errSkip :: rest => update_loop rest
  | .okUpdate :: rest =>
    let r := update_loop rest
    (r.1 + 1, r.2)

/-- The loop behaviour claimed by the specification, for comparison: a
cycle that begins disconnected aborts that cycle only, and the loop
exits when a second consecutive cycle also begins disconnected. -/
def claimedTwoStrikeLoop : List CycleObs → ℕ × LoopExit
  | [] => (0, .stopped)
  | [.disconnected] => (0, .stopped)
  | .disconnected :: .disconnected :: _ => (0, .notConnectedBreak)
  | .disconnected :: rest => claimedTwoStrikeLoop rest
  | .connLost :: _ => (0, .connectionErrorBreak)
  | .errSkip :: rest => claimedTwoStrikeLoop rest
  | .okUpdate :: rest =>
    let r := claimedTwoStrikeLoop rest
    (r.1 + 1, r.2)

/-! ## Order manager (`order_manager.py`) -/

/-- One leg of a multi-leg request, as read out of the request dict.
`order_type` is accessed with `leg.get("order_type", "MARKET")`, so a
request without the field is modelled by the value `"MARKET"`. -/
structure Leg where
  symbol : String
  expiry : String
  strike : ℚ
  right : String
  action : String
  quantity : ℕ
  order_type : String
  limit_price : ℚ
deriving DecidableEq

/-- The order type of an ib_insync order object. -/
inductive OrderKind where
  | market : OrderKind
  | limit : ℚ → OrderKind
deriving DecidableEq

/-- The order object handed to `ib.placeOrder`. -/
structure OrderSpec where
  action : String
  totalQuantity : ℕ
  kind : OrderKind
  transmit : Bool
  parentId : Option ℕ
deriving DecidableEq

/-- The contract handed to `ib.placeOrder`: either a qualified single
option contract or a BAG combo whose legs carry `(ratio, action)` pairs
from the request legs. -/
inductive ContractRef where
  | option : String → String → ℚ → String → ContractRef
  | combo : String → List (ℕ × String) → ContractRef
deriving DecidableEq

/-- The live `orderStatus` fields of an ib_insync trade handle. -/
structure TradeStatus where
  status : String
  filled : ℚ
  remaining : ℚ
deriving DecidableEq

/-- An entry of `self.orders`: the dict stored at placement, with the
cached `status` string, the optional parent/children links of the
bracket path, and the trade handle (the handle's live fields are
brokerage-side truth, supplied here by the gateway model). -/
structure OrderRecord where
  status : String
  trade : Option TradeStatus
  parent : Option ℕ
  children : List ℕ

/-- The order ledger `self.orders`, keyed by order id. -/
def Ledger : Type := ℕ → Option OrderRecord

/-- An empty ledger. -/
def emptyLedger : Ledger := fun _ => none

/-- Store `self.orders[oid] = rec`. -/
def ledgerInsert (oid : ℕ) (rec : OrderRecord) (L : Ledger) : Ledger :=
  fun n => if n = oid then some rec else L n

/-- Embeds `self.orders[parent_id]["children"].append(child_id)` (the
parent record is always present when this runs). -/
def ledgerAddChild (pid cid : ℕ) (L : Ledger) : Ledger :=
  fun n =>
    if n = pid then (L pid).map (fun r => { r with children := r.children ++ [cid] })
    else L n

/-- The observable effect trail of the gateway (`self.client.ib`):
order ids it will assign, the `placeOrder` calls made (id, contract,
order object), the parent ids passed to `cancelOrder`, and the live
trade state it reports per order id. -/
structure Gateway where
  nextId : ℕ
  placed : List (ℕ × ContractRef × OrderSpec)
  cancelled : List ℕ
  liveStatus : ℕ → TradeStatus

/-- Typed stand-ins for the failure messages of `order_manager.py`. -/
inductive OrderError where
  | notConnected : OrderError
  | noLegs : OrderError
  | invalidContractCombo : ℚ → String → OrderError
  | invalidContractParent : OrderError
  | invalidContractChild : ℕ → OrderError
deriving DecidableEq

/-- The result dict of `place_multi_leg_order`: the combo path returns
only an order id, the bracket path an order id plus child ids, failures
a message. -/
inductive PMLResult where
  | comboOk : ℕ → PMLResult
  | bracketOk : ℕ → List ℕ → PMLResult
  | fail : OrderError → PMLResult
deriving DecidableEq

/-- The branch test of line 119: `len(set(leg["expiry"] for leg in
legs)) == 1 and len(set(leg["symbol"] for leg in legs)) == 1`. -/
def sameSymbolExpiry (legs : List Leg) : Bool :=
  ((legs.map (fun l => l.expiry)).dedup.length == 1)
    && ((legs.map (fun l => l.symbol)).dedup.length == 1)

/-- The first leg whose contract fails qualification, in request order
(the combo loop returns at the first failure). -/
def findBadLeg (qualifies : Leg → Bool) : List Leg → Option Leg
  | [] => none
  | l :: ls => if qualifies l then findBadLeg qualifies ls else some l

/-- The order object built for a bracket leg: market unless the leg
says otherwise, with the given transmit flag and parent link (the
multi-leg path treats any non-`"MARKET"` order type as limit). -/
def legOrderSpec (l : Leg) (transmit : Bool) (parentId : Option ℕ) : OrderSpec :=
  if l.order_type = "MARKET" then ⟨l.action, l.quantity, .market, transmit, parentId⟩
  else ⟨l.action, l.quantity, .limit l.limit_price, transmit, parentId⟩

/-- The qualified single-option contract for a leg. -/
def legContract (l : Leg) : ContractRef :=
  .option l.symbol l.expiry l.strike l.right

/-- The child-placement loop of the bracket path (lines 217-267).  `i`
is the Python enumeration index (starting at 1), `total` is
`len(legs)`.  A child whose contract fails qualification triggers
`cancelOrder(parent_order)` and an immediate failure return — the
already-stored ledger records are left as they are. -/
def placeChildren (qualifies : Leg → Bool) (pid total : ℕ) :
    ℕ → List Leg → Ledger → Gateway → List ℕ → PMLResult × Ledger × Gateway
  | _, [], L, gw, acc => (.bracketOk pid acc, L, gw)
  | i, c :: cs, L, gw, acc =>
    if qualifies c then
      let cid := gw.nextId
      let spec := legOrderSpec c (i == total - 1) (some pid)
      let gw' : Gateway :=
        { gw with nextId := cid + 1, placed := gw.placed ++ [(cid, legContract c, spec)] }
      let L' := ledgerInsert cid ⟨"SUBMITTED", some (gw.liveStatus cid), some pid, []⟩
        (ledgerAddChild pid cid L)
      placeChildren qualifies pid total (i + 1) cs L' gw' (acc ++ [cid])
    else
      (.fail (.invalidContractChild (i + 1)), L, { gw with cancelled := gw.cancelled ++ [pid] })

/-- Embeds `OrderManager.place_multi_leg_order`.  All legs sharing one
symbol and expiry go through the combo path: qualify every leg (first
failure aborts before anything is placed), then submit a single BAG
market order `BUY 1` whose combo legs carry the per-leg ratio/action
pairs.  Otherwise leg 0 is placed as an untransmitted parent and the
remaining legs as children linked by `parentId`, the last transmitted. -/
def place_multi_leg_order (connected : Bool) (qualifies : Leg → Bool)
    (legs : List Leg) (L : Ledger) (gw : Gateway) : PMLResult × Ledger × Gateway :=
  if connected = false then (.fail .notConnected, L, gw)
  else
    match legs with
    | [] => (.fail .noLegs, L, gw)
    | p :: rest =>
      if sameSymbolExpiry (p :: rest) then
        match findBadLeg qualifies (p :: rest) with
        | some bad => (.fail (.invalidContractCombo bad.strike bad.right), L, gw)
        | none =>
          let contract := ContractRef.combo p.symbol
            ((p :: rest).map (fun l => (l.quantity, l.action)))
          let spec : OrderSpec := ⟨"BUY", 1, .market, true, none⟩
          let oid := gw.nextId
          ( .comboOk oid,
            ledgerInsert oid ⟨"SUBMITTED", some (gw.liveStatus oid), none, []⟩ L,
            { gw with nextId := oid + 1, placed := gw.placed ++ [(oid, contract, spec)] } )
      else
        if qualifies p then
          let pid := gw.nextId
          let spec := legOrderSpec p false none
          let gw₁ : Gateway :=
            { gw with nextId := pid + 1, placed := gw.placed ++ [(pid, legContract p, spec)] }
          let L₁ := ledgerInsert pid ⟨"SUBMITTED", some (gw.liveStatus pid), none, []⟩ L
          placeChildren qualifies pid (p :: rest).length 1 rest L₁ gw₁ []
        else (.fail .invalidContractParent, L, gw)

/-- A concrete two-leg request spanning two expiries (leg 0 the
bracket parent, leg 1 a child on the next day's expiry). -/
def cexLegs : List Leg :=
  [⟨"SPY", "20250514", 500, "C", "BUY", 1, "MARKET", 0⟩,
   ⟨"SPY", "20250515", 510, "C", "SELL", 1, "MARKET", 0⟩]

/-- A qualification oracle under which only 0DTE contracts qualify, so
`cexLegs`' child leg fails qualification. -/
def cexQualifies : Leg → Bool := fun l => l.expiry == "20250514"

/-- A fresh gateway that will assign order ids from 1. -/
def cexGateway : Gateway := ⟨1, [], [], fun _ => ⟨"PendingSubmit", 0, 0⟩⟩

/-- First leg of a same-expiry combo example: a sell of three limit
contracts. -/
def legC1 : Leg := ⟨"SPY", "20250514", 500, "C", "SELL", 3, "LIMIT", 5⟩

/-- Second leg of the same-expiry combo example: a buy of seven market
contracts. -/
def legC2 : Leg := ⟨"SPY", "20250514", 505, "P", "BUY", 7, "MARKET", 0⟩

/-- Parent leg of a three-leg bracket example. -/
def leg3a : Leg := ⟨"SPY", "20250514", 500, "C", "BUY", 1, "MARKET", 0⟩

/-- First child leg of the three-leg bracket example (qualifies). -/
def leg3c : Leg := ⟨"SPY", "20250514", 505, "P", "SELL", 2, "LIMIT", 2⟩

/-- Second child leg of the three-leg bracket example (fails to
qualify). -/
def leg3b : Leg := ⟨"SPY", "20250516", 510, "C", "SELL", 1, "MARKET", 0⟩

/-- The three-leg bracket request: parent, one good child, one bad
child. -/
def legs3 : List Leg := [leg3a, leg3c, leg3b]

/-- Qualification oracle for the three-leg example: everything but the
`20250516` expiry qualifies. -/
def cexQualifies3 : Leg → Bool := fun l => !(l.expiry == "20250516")

/-- A fresh gateway for the three-leg example, assigning ids from 11. -/
def gw3 : Gateway := ⟨11, [], [], fun _ => ⟨"PendingSubmit", 0, 0⟩⟩

/-- The result of `get_order_status`. -/
inductive StatusResult where
  | err : String → StatusResult
  | live : String → ℚ → ℚ → StatusResult
  | cached : String → StatusResult
deriving DecidableEq

/-- `hasattr(order_info, "trade")` where `order_info` is a plain dict:
in Python a dict's entries are keys, not attributes, so this is `False`
regardless of the record's contents. -/
def dictHasattrTrade (_ : OrderRecord) : Bool := false

/-- Embeds `OrderManager.get_order_status`: reject when not connected
or the id is unknown; otherwise take the live trade-state branch when
`hasattr(order_info, "trade") and order_info["trade"]` holds, else
answer the cached status string. -/
def get_order_status (connected : Bool) (L : Ledger) (oid : ℕ) : StatusResult :=
  if connected = false then .err "Not connected to TWS"
  else
    match L oid with
    | none => .err "Order ID not found"
    | some info =>
      if dictHasattrTrade info && info.trade.isSome then
        match info.trade with
        | some t => .live t.status t.filled t.remaining
        | none => .cached info.status
      else .cached info.status

/-! ## Helper lemmas -/

lemma pyAbs_eq_abs (q : ℚ) : pyAbs q = |q| := by
  unfold pyAbs
  rcases lt_or_le q 0 with h | h
  · rw [if_pos h, abs_of_neg h]
  · rw [if_neg (not_lt.mpr h), abs_of_nonneg h]

lemma posVal_pos {o : Option PyFloat} {r : ℚ} (h : posVal o = some r) : 0 < r := by
  cases o with
  | none => simp [posVal] at h
  | some pf =>
    cases pf with
    | nan => simp [posVal] at h
    | val q =>
      by_cases hq : 0 < q
      · simp [posVal, hq] at h
        exact h ▸ hq
      · simp [posVal, hq] at h

lemma update_spy_price_cases (old : ℚ) (t : SpyTicker) :
    (update_spy_price old t).1 = old ∨ 0 < (update_spy_price old t).1 := by
  unfold update_spy_price
  cases h : computeNewPrice t with
  | nan => left; rfl
  | val q =>
    by_cases hq : 0 < q
    · right; simp [hq]
    · left; simp [hq]

lemma update_options_chain_spy_price (s : ClientState) (inp : ChainCycleInput) :
    ((update_options_chain s inp).1).spy_price = s.spy_price := by
  unfold update_options_chain
  by_cases hle : s.spy_price ≤ 0
  · simp [hle]
  · cases inp with
    | qualifyFail => simp [hle]
    | noChains => simp [hle]
    | chain params qual tick =>
      by_cases hmem : targetExpiry ∈ params.expirations
      · by_cases hstr : dedupSort params.strikes = []
        · simp [hle, hmem, hstr]
        · by_cases hcon : (selectStrikes (dedupSort params.strikes) s.spy_price
              strikes_around_atm_count).flatMap (fun k => [(k, "C"), (k, "P")]) = []
          · simp [hle, hmem, hstr, hcon]
          · simp [hle, hmem, hstr, hcon]
      · simp [hle, hmem]

lemma mem_values_dictInsert {k : DKey} {v v' : OptionQuote} :
    ∀ {l : List (DKey × OptionQuote)},
      v ∈ (dictInsert k v' l).map Prod.snd → v = v' ∨ v ∈ l.map Prod.snd := by
  intro l
  induction l with
  | nil => simp [dictInsert]
  | cons hd tl ih =>
    obtain ⟨k', w⟩ := hd
    by_cases hk : k' = k
    · simp only [dictInsert, if_pos hk, List.map_cons, List.mem_cons]
      rintro (h | h)
      · exact Or.inl h
      · exact Or.inr (by simp [h])
    · simp only [dictInsert, if_neg hk, List.map_cons, List.mem_cons]
      rintro (h | h)
      · exact Or.inr (Or.inl h)
      · rcases ih h with h' | h'
        · exact Or.inl h'
        · exact Or.inr (Or.inr h')

lemma buildOptionsData_values :
    ∀ (ts : List OptionTicker) (acc : List (DKey × OptionQuote)) (v : OptionQuote),
      v ∈ (buildOptionsData ts acc).map Prod.snd →
      (∃ t ∈ ts, ∃ c, t.contract = some c ∧ v = quoteOfTicker c t) ∨ v ∈ acc.map Prod.snd := by
  intro ts
  induction ts with
  | nil => intro acc v h; exact Or.inr h
  | cons t ts ih =>
    intro acc v h
    cases hc : t.contract with
    | none =>
      rw [buildOptionsData, hc] at h
      rcases ih acc v h with h' | h'
      · rcases h' with ⟨t', ht', cc, hcc, hv⟩
        exact Or.inl ⟨t', List.mem_cons_of_mem _ ht', cc, hcc, hv⟩
      · exact Or.inr h'
    | some c =>
      rw [buildOptionsData, hc] at h
      rcases ih _ v h with h' | h'
      · rcases h' with ⟨t', ht', cc, hcc, hv⟩
        exact Or.inl ⟨t', List.mem_cons_of_mem _ ht', cc, hcc, hv⟩
      · rcases mem_values_dictInsert h' with h'' | h''
        · exact Or.inl ⟨t, List.mem_cons_self t ts, c, hc, h''⟩
        · exact Or.inr h''

/-! ## Claims -/

/-- C5: for every returned option ticker, the stored bid (likewise
ask) is the `'N/A'` marker exactly when the raw field is missing, NaN,
or the sentinel `-1`, and is the raw numeric value otherwise — in
particular a raw `0.0` is stored as `0.0`; and every quote stored by
the chain rebuild is obtained from some ticker through this
normalization. -/
theorem quote_normalization_exact :
    (∀ b : Option PyFloat,
      (normalizeQuoteField b = .NA ↔ b = none ∨ b = some .nan ∨ b = some (.val (-1))))
    ∧ (∀ q : ℚ, q ≠ -1 → normalizeQuoteField (some (.val q)) = .price q)
    ∧ normalizeQuoteField (some (.val 0)) = .price 0
    ∧ (∀ (ts : List OptionTicker) (v : OptionQuote),
        v ∈ (buildOptionsData ts []).map Prod.snd →
        ∃ t ∈ ts, ∃ c, t.contract = some c ∧ v = quoteOfTicker c t) := by
  refine ⟨?_, ?_, ?_, ?_⟩
  · intro b
    cases b with
    | none => simp [normalizeQuoteField]
    | some pf =>
      cases pf with
      | nan => simp [normalizeQuoteField]
      | val q =>
        by_cases hq : q = -1
        · simp [normalizeQuoteField, hq]
        · simp [normalizeQuoteField, hq]
  · intro q hq
    simp [normalizeQuoteField, hq]
  · norm_num [normalizeQuoteField]
  · intro ts v h
    rcases buildOptionsData_values ts [] v h with h' | h'
    · exact h'
    · simp at h'

/-- C5 witness: the normalization at a concrete non-sentinel value,
obtained by applying the claim's theorem. -/
theorem quote_normalization_witness :
    normalizeQuoteField (some (.val (5/2))) = .price (5/2) :=
  quote_normalization_exact.2.1 (5/2) (by norm_num)

/-- C9: reading the snapshot twice from the same state, with no
intervening publish, yields identical payloads — the read step leaves
the client state untouched, so the second read sees the same state. -/
theorem snapshot_read_idempotent (s : ClientState) (c : Bool) :
    (applyOp s (.readSnapshot c)).2
      = (applyOp (applyOp s (.readSnapshot c)).1 (.readSnapshot c)).2
    ∧ (applyOp s (.readSnapshot c)).1 = s :=
  ⟨rfl, rfl⟩

/-- C3 (code bug): `get_order_status` can never answer the live
trade-state fields, because `hasattr(order_info, "trade")` on a dict is
always false; at the concrete failing input — a connected client whose
ledger holds order 7 with a live trade handle reporting `Filled 1 0` —
it answers the stale cached string instead. -/
theorem order_status_never_live :
    (∀ (c : Bool) (L : Ledger) (oid : ℕ) (st : String) (f r : ℚ),
        get_order_status c L oid ≠ .live st f r)
    ∧ get_order_status true
        (ledgerInsert 7 ⟨"SUBMITTED", some ⟨"Filled", 1, 0⟩, none, []⟩ emptyLedger) 7
      = .cached "SUBMITTED" := by
  constructor
  · intro c L oid st f r
    unfold get_order_status
    by_cases hc : c = false
    · simp [hc]
    · simp only [hc, if_false]
      cases L oid with
      | none => simp
      | some info => simp [dictHasattrTrade]
  · rfl

/-- C4 counterexample: on the observation trace `[disconnected,
okUpdate, okUpdate]` the implemented loop exits at once with zero
completed cycles, while the claim's two-consecutive-aborts loop would
complete both remaining cycles and stop normally. -/
theorem refresh_loop_counterexample :
    update_loop [.disconnected, .okUpdate, .okUpdate] = (0, .notConnectedBreak)
    ∧ claimedTwoStrikeLoop [.disconnected, .okUpdate, .okUpdate] = (2, .stopped)
    ∧ update_loop [.disconnected, .okUpdate, .okUpdate]
        ≠ claimedTwoStrikeLoop [.disconnected, .okUpdate, .okUpdate] := by
  refine ⟨rfl, rfl, ?_⟩
  decide

/-- C4 amended: the refresh loop terminates at the first cycle that
begins with the gateway reporting not-connected; that cycle performs no
update, the completed-cycle count is the number of successful cycles
before it, and no second disconnected cycle is awaited. -/
theorem refresh_loop_first_disconnect (pre rest : List CycleObs)
    (h : ∀ c ∈ pre, c = .okUpdate ∨ c = .errSkip) :
    update_loop (pre ++ .disconnected :: rest)
      = (pre.countP (fun c => c == .okUpdate), .notConnectedBreak) := by
  induction pre with
  | nil => simp [update_loop]
  | cons c cs ih =>
    have hc := h c (List.mem_cons_self c cs)
    have hrest : ∀ x ∈ cs, x = .okUpdate ∨ x = .errSkip :=
      fun x hx => h x (List.mem_cons_of_mem c hx)
    rcases hc with hc | hc <;> subst hc <;>
      simp [update_loop, ih hrest, List.countP_cons]

/-- C4 witness: the amended theorem applied to a trace with one
successful cycle before the disconnect. -/
theorem refresh_loop_witness :
    update_loop [.okUpdate, .disconnected] = (1, .notConnectedBreak) := by
  have h := refresh_loop_first_disconnect [.okUpdate] []
    (by intro c hc; simp at hc; subst hc; exact Or.inl rfl)
  simpa using h

/-- C8: with a valid price, a chain whose expiration list misses the
0DTE target makes the cycle clear only `options_data`, request no
market data, and leave the stored price (and everything else)
unchanged. -/
theorem expiry_missing_clears_quotes (s : ClientState) (params : ChainParams)
    (qual : ℚ → String → Option OptContract) (tick : OptContract → OptionTicker)
    (hp : 0 < s.spy_price) (hmiss : targetExpiry ∉ params.expirations) :
    update_options_chain s (.chain params qual tick)
      = ({ s with options_data := [] }, []) := by
  unfold update_options_chain
  rw [if_neg (not_le.mpr hp)]
  exact if_neg hmiss

/-- C8 witness: the theorem applied to a concrete state holding one
quote, against a chain listing only the next day's expiry. -/
theorem expiry_missing_witness :
    update_options_chain
        ⟨520, [((520, "C"), ⟨520, "C", .price 1, .price 2, "SPY X"⟩)]⟩
        (.chain ⟨["20250515"], [520]⟩ (fun _ _ => none)
          (fun _ => ⟨none, none, none⟩))
      = (⟨520, []⟩, []) := by
  have h := expiry_missing_clears_quotes
    ⟨520, [((520, "C"), ⟨520, "C", .price 1, .price 2, "SPY X"⟩)]⟩
    ⟨["20250515"], [520]⟩ (fun _ _ => none) (fun _ => ⟨none, none, none⟩)
    (by norm_num) (by decide)
  simpa using h

/-- C6 counterexample: with `marketPrice = NaN`, `last = 100` and
`close = 90` the claim's fallback would store `100`, but the
implementation takes the truthy-NaN branch, fails the positivity test,
keeps the stale price `50` and records the warning. -/
theorem spy_price_counterexample :
    update_spy_price 50 ⟨.nan, some (.val 100), some (.val 90)⟩ = (50, true)
    ∧ update_spy_price 50 ⟨.nan, some (.val 100), some (.val 90)⟩ ≠ ((100 : ℚ), false) := by
  constructor
  · rfl
  · intro h
    have h50 : (50 : ℚ) = 100 := congrArg Prod.fst h
    norm_num at h50

/-- C6 amended: the per-cycle price update selects `marketPrice`
whenever it is NaN or nonzero (Python truthiness); only an exactly-zero
`marketPrice` falls back to `last`, then `close`, each accepted when
present, non-NaN and positive; a selected candidate that is not a
positive number leaves the stored price unchanged and records a
warning. -/
theorem spy_price_selection_amended (old : ℚ) (t : SpyTicker) :
    update_spy_price old t = amendedSpyPrice old t := by
  unfold update_spy_price amendedSpyPrice computeNewPrice
  cases hm : t.marketPrice with
  | nan => simp [PyFloat.truthy]
  | val q =>
    by_cases hq : q = 0
    · subst hq
      simp only [PyFloat.truthy, bne_self_eq_false, if_neg Bool.false_ne_true, if_pos rfl]
      cases hl : posVal t.last with
      | some r => simp [posVal_pos hl]
      | none =>
        cases hcl : posVal t.close with
        | some r => simp [posVal_pos hcl]
        | none => norm_num
    · have : (q != 0) = true := by simpa using hq
      simp [PyFloat.truthy, this, hq]

/-- C2: in every reachable client state a non-positive SPY price comes
with an empty options dict — the price is only ever assigned positive
values and the chain update bails out before touching `options_data`
whenever the price is not positive — and hence every published snapshot
with a non-positive underlying price carries an empty quotes mapping. -/
theorem price_invariant (s : ClientState) (hs : Reach s) :
    (s.spy_price ≤ 0 → s.options_data = [])
    ∧ ∀ c : Bool, (get_options_data c s).spy_price ≤ 0 →
        (get_options_data c s).options = [] := by
  have core : ∀ u : ClientState, Reach u → u.spy_price ≤ 0 → u.options_data = [] := by
    intro u hu
    induction hu with
    | init => intro _; rfl
    | @price v t _ ih =>
      intro hle
      rcases update_spy_price_cases v.spy_price t with hc | hc
      · have hsp : (applyPriceUpdate v t).spy_price = v.spy_price := hc
        have hdata : (applyPriceUpdate v t).options_data = v.options_data := rfl
        rw [hdata]
        exact ih (by rw [← hsp]; exact hle)
      · exact absurd hle (not_le.mpr hc)
    | @chain v inp _ ih =>
      intro hle
      have hsp : ((update_options_chain v inp).1).spy_price = v.spy_price :=
        update_options_chain_spy_price v inp
      have hvle : v.spy_price ≤ 0 := by rw [← hsp]; exact hle
      have hres : update_options_chain v inp = (v, []) := by
        unfold update_options_chain
        rw [if_pos hvle]
      rw [hres]
      exact ih hvle
  refine ⟨core s hs, ?_⟩
  intro c hle
  cases c with
  | false => rfl
  | true =>
    by_cases hcond : s.options_data = [] ∧ s.spy_price ≤ 0
    · simp [get_options_data, hcond]
    · simp only [get_options_data, Bool.true_eq_false, if_false, if_neg hcond] at hle ⊢
      exact core s hs hle

/-- C2 witness: the invariant at the initial state. -/
theorem price_invariant_witness : initState.options_data = [] :=
  (price_invariant initState Reach.init).1 (le_refl 0)

lemma placeChildren_fail (qualifies : Leg → Bool) (pid total : ℕ) :
    ∀ (cs₁ : List Leg) (bad : Leg) (cs₂ : List Leg) (i : ℕ) (L : Ledger) (gw : Gateway)
      (acc : List ℕ),
      (∀ c ∈ cs₁, qualifies c = true) → qualifies bad = false →
      pid < gw.nextId →
      (∃ rec : OrderRecord, L pid = some rec ∧ rec.status = "SUBMITTED") →
      (∃ e, (placeChildren qualifies pid total i (cs₁ ++ bad :: cs₂) L gw acc).1
          = PMLResult.fail e)
      ∧ pid ∈ (placeChildren qualifies pid total i (cs₁ ++ bad :: cs₂) L gw acc).2.2.cancelled
      ∧ ∃ rec : OrderRecord,
          (placeChildren qualifies pid total i (cs₁ ++ bad :: cs₂) L gw acc).2.1 pid
            = some rec ∧ rec.status = "SUBMITTED" := by
  intro cs₁
  induction cs₁ with
  | nil =>
    intro bad cs₂ i L gw acc _ hbad _ hrec
    simp only [List.nil_append, placeChildren, hbad, Bool.false_eq_true, if_false]
    refine ⟨⟨.invalidContractChild (i + 1), rfl⟩, ?_, hrec⟩
    simp
  | cons c cs ih =>
    intro bad cs₂ i L gw acc hok hbad hfresh hrec
    have hc : qualifies c = true := hok c (List.mem_cons_self c cs)
    have hok' : ∀ x ∈ cs, qualifies x = true :=
      fun x hx => hok x (List.mem_cons_of_mem c hx)
    simp only [List.cons_append, placeChildren, hc, if_true]
    apply ih bad cs₂ (i + 1) _ _ _ hok' hbad
    · simpa using Nat.lt_succ_of_lt hfresh
    · obtain ⟨rec, hr, hst⟩ := hrec
      refine ⟨{ rec with children := rec.children ++ [gw.nextId] }, ?_, hst⟩
      have hne : gw.nextId ≠ pid := Nat.ne_of_gt hfresh
      unfold ledgerInsert ledgerAddChild
      rw [if_neg (Ne.symm (Nat.ne_of_gt hfresh)), if_pos rfl, hr]
      rfl

/-- C1 counterexample: a two-leg request across two expiries whose
child leg fails qualification — the call fails and the parent's cancel
is invoked, but the ledger still holds the parent's record with status
`"SUBMITTED"`, contradicting the claim that no such record remains. -/
theorem bracket_cancel_counterexample :
    (place_multi_leg_order true cexQualifies cexLegs emptyLedger cexGateway).1
      = .fail (.invalidContractChild 2)
    ∧ (place_multi_leg_order true cexQualifies cexLegs emptyLedger cexGateway).2.2.cancelled
      = [1]
    ∧ (place_multi_leg_order true cexQualifies cexLegs emptyLedger cexGateway).2.1 1
      = some ⟨"SUBMITTED", some ⟨"PendingSubmit", 0, 0⟩, none, []⟩ :=
  ⟨rfl, rfl, rfl⟩

/-- C1 amended: when a bracket request's child leg fails qualification,
the gateway's cancel is invoked on the parent order and the call
returns a failure result, but the order ledger still contains the
parent's record with status `"SUBMITTED"` — the failure path does not
remove it or transition its status. -/
theorem bracket_cancel_keeps_submitted (qualifies : Leg → Bool) (p bad : Leg)
    (cs₁ cs₂ : List Leg) (L : Ledger) (gw : Gateway)
    (hbranch : sameSymbolExpiry (p :: (cs₁ ++ bad :: cs₂)) = false)
    (hp : qualifies p = true)
    (hok : ∀ c ∈ cs₁, qualifies c = true)
    (hbad : qualifies bad = false) :
    (∃ e, (place_multi_leg_order true qualifies (p :: (cs₁ ++ bad :: cs₂)) L gw).1
        = PMLResult.fail e)
    ∧ gw.nextId ∈
        (place_multi_leg_order true qualifies (p :: (cs₁ ++ bad :: cs₂)) L gw).2.2.cancelled
    ∧ ∃ rec : OrderRecord,
        (place_multi_leg_order true qualifies (p :: (cs₁ ++ bad :: cs₂)) L gw).2.1 gw.nextId
          = some rec ∧ rec.status = "SUBMITTED" := by
  have hbranch' : sameSymbolExpiry (p :: (cs₁ ++ bad :: cs₂)) ≠ true := by
    rw [hbranch]; exact Bool.false_ne_true
  simp only [place_multi_leg_order, Bool.true_eq_false, if_false, hbranch',
    if_neg hbranch', hp, if_true]
  apply placeChildren_fail qualifies gw.nextId _ cs₁ bad cs₂ 1 _ _ [] hok hbad
  · exact Nat.lt_succ_self _
  · refine ⟨⟨"SUBMITTED", some (gw.liveStatus gw.nextId), none, []⟩, ?_, rfl⟩
    unfold ledgerInsert
    rw [if_pos rfl]

/-- C1 witness: the amended theorem at a concrete three-leg bracket
whose second child fails qualification. -/
theorem bracket_cancel_witness :
    gw3.nextId ∈
      (place_multi_leg_order true cexQualifies3 legs3 emptyLedger gw3).2.2.cancelled
    ∧ ∃ rec : OrderRecord,
        (place_multi_leg_order true cexQualifies3 legs3 emptyLedger gw3).2.1 gw3.nextId
          = some rec ∧ rec.status = "SUBMITTED" := by
  have h := bracket_cancel_keeps_submitted cexQualifies3 leg3a leg3b [leg3c] []
    emptyLedger gw3 (by decide) (by decide) (by intro c hc; simp at hc; subst hc; decide)
    (by decide)
  exact ⟨h.2.1, h.2.2⟩

lemma findBadLeg_eq_none {qualifies : Leg → Bool} :
    ∀ {ls : List Leg}, (∀ l ∈ ls, qualifies l = true) → findBadLeg qualifies ls = none := by
  intro ls
  induction ls with
  | nil => intro _; rfl
  | cons l ls ih =>
    intro h
    have hl : qualifies l = true := h l (List.mem_cons_self l ls)
    simp only [findBadLeg, hl, if_true]
    exact ih (fun x hx => h x (List.mem_cons_of_mem l hx))

/-- C10: a multi-leg request whose legs all share one symbol and expiry
is submitted as exactly one combo order whose top-level action is
`"BUY"`, order type Market and total quantity `1`, independently of the
legs' order types, limit prices and quantities, which appear only as
per-leg ratio/action pairs inside the BAG contract. -/
theorem combo_order_top_level (qualifies : Leg → Bool) (p : Leg) (rest : List Leg)
    (L : Ledger) (gw : Gateway)
    (hbranch : sameSymbolExpiry (p :: rest) = true)
    (hq : ∀ l ∈ p :: rest, qualifies l = true) :
    (place_multi_leg_order true qualifies (p :: rest) L gw).1 = .comboOk gw.nextId
    ∧ (place_multi_leg_order true qualifies (p :: rest) L gw).2.2.placed
      = gw.placed ++ [(gw.nextId,
          ContractRef.combo p.symbol ((p :: rest).map (fun l => (l.quantity, l.action))),
          ⟨"BUY", 1, .market, true, none⟩)] := by
  simp [place_multi_leg_order, hbranch, findBadLeg_eq_none hq]

/-- C10 witness: two same-expiry legs with different quantities,
actions and a limit order type still produce the `BUY 1` Market combo. -/
theorem combo_order_witness :
    (place_multi_leg_order true (fun _ => true) [legC1, legC2] emptyLedger cexGateway).1
      = .comboOk 1
    ∧ (place_multi_leg_order true (fun _ => true) [legC1, legC2] emptyLedger
        cexGateway).2.2.placed
      = [(1, ContractRef.combo "SPY" [(3, "SELL"), (7, "BUY")],
          ⟨"BUY", 1, .market, true, none⟩)] := by
  have h := combo_order_top_level (fun _ => true) legC1 [legC2] emptyLedger cexGateway
    (by decide) (by intro l _; rfl)
  simpa [legC1, legC2, cexGateway] using h

lemma pyMinBy_cons (key : ℚ → ℚ) (x y : ℚ) (ys : List ℚ) :
    pyMinBy key x (y :: ys) = pyMinBy key (if key y < key x then y else x) ys := rfl

lemma pyMinBy_mem (key : ℚ → ℚ) :
    ∀ (xs : List ℚ) (x : ℚ), pyMinBy key x xs = x ∨ pyMinBy key x xs ∈ xs := by
  intro xs
  induction xs with
  | nil => intro x; left; rfl
  | cons y ys ih =>
    intro x
    rw [pyMinBy_cons]
    rcases ih (if key y < key x then y else x) with h | h
    · by_cases hxy : key y < key x
      · right; rw [h, if_pos hxy]; exact List.mem_cons_self _ _
      · left; rw [h, if_neg hxy]
    · right; exact List.mem_cons_of_mem _ h

lemma pyMinBy_le (key : ℚ → ℚ) :
    ∀ (xs : List ℚ) (x : ℚ),
      key (pyMinBy key x xs) ≤ key x ∧ ∀ y ∈ xs, key (pyMinBy key x xs) ≤ key y := by
  intro xs
  induction xs with
  | nil => intro x; exact ⟨le_refl _, by simp⟩
  | cons y ys ih =>
    intro x
    rw [pyMinBy_cons]
    by_cases hxy : key y < key x
    · rw [if_pos hxy]
      obtain ⟨h1, h2⟩ := ih y
      refine ⟨le_trans h1 (le_of_lt hxy), ?_⟩
      intro z hz
      rcases List.mem_cons.mp hz with hz | hz
      · subst hz; exact h1
      · exact h2 z hz
    · rw [if_neg hxy]
      obtain ⟨h1, h2⟩ := ih x
      refine ⟨h1, ?_⟩
      intro z hz
      rcases List.mem_cons.mp hz with hz | hz
      · subst hz; exact le_trans h1 (not_lt.mp hxy)
      · exact h2 z hz

lemma abs_dist_partner {a b p : ℚ} (h : |a - p| = |b - p|) (hne : a ≠ b) :
    a + b = 2 * p := by
  rcases abs_eq_abs.mp h with h' | h'
  · exact absurd (by linarith) hne
  · linarith

lemma pyMinBy_tiebreak_gen (key : ℚ → ℚ)
    (h3 : ∀ a b c : ℚ, a < b → b < c → key a = key b → key b = key c → False) :
    ∀ (xs : List ℚ) (x : ℚ),
      (∀ y ∈ xs, x < y) → List.Sorted (· < ·) xs →
      ∀ s, (s = x ∨ s ∈ xs) → key s = key (pyMinBy key x xs) →
        pyMinBy key x xs ≤ s := by
  intro xs
  induction xs with
  | nil =>
    intro x _ _ s hs _
    rcases hs with hs | hs
    · subst hs; exact le_refl _
    · simp at hs
  | cons y ys ih =>
    intro x hlt hsort s hs hkey
    have hxy : x < y := hlt y (List.mem_cons_self y ys)
    have hxys : ∀ z ∈ ys, x < z :=
      fun z hz => hlt z (List.mem_cons_of_mem y hz)
    have hyys : ∀ z ∈ ys, y < z := by
      intro z hz
      exact List.rel_of_sorted_cons hsort z hz
    have hsort' : List.Sorted (· < ·) ys := List.sorted_cons.mp hsort |>.2
    rw [pyMinBy_cons] at hkey ⊢
    by_cases hk : key y < key x
    · rw [if_pos hk] at hkey ⊢
      have hm_le : key (pyMinBy key y ys) ≤ key y := (pyMinBy_le key ys y).1
      rcases hs with hs | hs
      · exfalso
        subst hs
        have hlt' : key (pyMinBy key y ys) < key s := lt_of_le_of_lt hm_le hk
        rw [← hkey] at hlt'
        exact lt_irrefl _ hlt'
      · rcases List.mem_cons.mp hs with hs | hs
        · exact ih y hyys hsort' s (Or.inl hs) hkey
        · exact ih y hyys hsort' s (Or.inr hs) hkey
    · rw [if_neg hk] at hkey ⊢
      have hxle : key x ≤ key y := not_lt.mp hk
      rcases hs with hs | hs
      · exact ih x hxys hsort' s (Or.inl hs) hkey
      · rcases List.mem_cons.mp hs with hs | hs
        · subst hs
          have hm1 : key (pyMinBy key x ys) ≤ key x := (pyMinBy_le key ys x).1
          rcases pyMinBy_mem key ys x with hm | hm
          · rw [hm]; exact le_of_lt hxy
          · exfalso
            have hym : s < pyMinBy key x ys := hyys _ hm
            have heq1 : key x = key s :=
              le_antisymm hxle (by rw [hkey]; exact hm1)
            have heq2 : key s = key (pyMinBy key x ys) := hkey
            exact h3 x s (pyMinBy key x ys) hxy hym heq1 heq2
        · exact ih x hxys hsort' s (Or.inr hs) hkey

lemma absDist_no_three (p : ℚ) :
    ∀ a b c : ℚ, a < b → b < c →
      pyAbs (a - p) = pyAbs (b - p) → pyAbs (b - p) = pyAbs (c - p) → False := by
  intro a b c hab hbc h1 h2
  rw [pyAbs_eq_abs, pyAbs_eq_abs] at h1 h2
  have e1 : a + b = 2 * p := abs_dist_partner h1 (ne_of_lt hab)
  have e2 : b + c = 2 * p := abs_dist_partner h2 (ne_of_lt hbc)
  have : a = c := by linarith
  linarith

lemma pyIndex_getElem? (a : ℚ) :
    ∀ l : List ℚ, a ∈ l → l[pyIndex a l]? = some a := by
  intro l
  induction l with
  | nil => intro h; simp at h
  | cons x xs ih =>
    intro h
    by_cases hx : x = a
    · simp [pyIndex, hx]
    · have hmem : a ∈ xs := by
        rcases List.mem_cons.mp h with h' | h'
        · exact absurd h'.symm hx
        · exact h'
      simp [pyIndex, hx, ih hmem]

/-- C7: on a non-empty sorted duplicate-free strike list with a
positive underlying price, the chosen ATM strike is in the list,
minimizes absolute distance to the price with ties broken toward the
lower strike, and the selected window consists exactly of the strikes
whose index lies within `n` of the ATM index, clamped to the list
bounds. -/
theorem strike_window_selection (strikes : List ℚ) (price : ℚ) (n : ℕ)
    (hsort : List.Sorted (· < ·) strikes) (hne : strikes ≠ []) (_hp : 0 < price) :
    atmStrike strikes price ∈ strikes
    ∧ (∀ s ∈ strikes, |atmStrike strikes price - price| ≤ |s - price|)
    ∧ (∀ s ∈ strikes, |s - price| = |atmStrike strikes price - price| →
        atmStrike strikes price ≤ s)
    ∧ (∀ s : ℚ, s ∈ selectStrikes strikes price n ↔
        ∃ j : ℕ, strikes[j]? = some s
          ∧ pyIndex (atmStrike strikes price) strikes - n ≤ j
          ∧ j ≤ pyIndex (atmStrike strikes price) strikes + n) := by
  cases strikes with
  | nil => exact absurd rfl hne
  | cons x xs =>
    have hmem : atmStrike (x :: xs) price ∈ x :: xs := by
      rcases pyMinBy_mem (fun z => pyAbs (z - price)) xs x with h | h
      · exact List.mem_cons.mpr (Or.inl h)
      · exact List.mem_cons.mpr (Or.inr h)
    have hmin : ∀ s ∈ x :: xs,
        pyAbs (atmStrike (x :: xs) price - price) ≤ pyAbs (s - price) := by
      intro s hs
      rcases List.mem_cons.mp hs with hs | hs
      · subst hs
        exact (pyMinBy_le (fun z => pyAbs (z - price)) xs s).1
      · exact (pyMinBy_le (fun z => pyAbs (z - price)) xs x).2 s hs
    have htie : ∀ s ∈ x :: xs,
        pyAbs (s - price) = pyAbs (atmStrike (x :: xs) price - price) →
        atmStrike (x :: xs) price ≤ s := by
      intro s hs heq
      have hlt : ∀ y ∈ xs, x < y := List.rel_of_sorted_cons hsort
      have hsort' : List.Sorted (· < ·) xs := (List.sorted_cons.mp hsort).2
      have h3 : ∀ a b c : ℚ, a < b → b < c →
          (fun z => pyAbs (z - price)) a = (fun z => pyAbs (z - price)) b →
          (fun z => pyAbs (z - price)) b = (fun z => pyAbs (z - price)) c → False :=
        fun a b c hab hbc h1 h2 => absDist_no_three price a b c hab hbc h1 h2
      exact pyMinBy_tiebreak_gen _ h3 xs x hlt hsort' s (List.mem_cons.mp hs) heq
    have hsel : selectStrikes (x :: xs) price n
        = ((x :: xs).drop (pyIndex (atmStrike (x :: xs) price) (x :: xs) - n)).take
            (min (x :: xs).length (pyIndex (atmStrike (x :: xs) price) (x :: xs) + n + 1)
              - (pyIndex (atmStrike (x :: xs) price) (x :: xs) - n)) := by
      simp only [selectStrikes, atmIndex, if_pos hmem]
    refine ⟨hmem, ?_, ?_, ?_⟩
    · intro s hs
      have h := hmin s hs
      rwa [pyAbs_eq_abs, pyAbs_eq_abs] at h
    · intro s hs heq
      apply htie s hs
      rwa [pyAbs_eq_abs, pyAbs_eq_abs]
    · intro s
      constructor
      · intro hs
        rw [hsel] at hs
        obtain ⟨m, hm⟩ := List.mem_iff_getElem?.mp hs
        rw [List.getElem?_take] at hm
        by_cases hmlt : m < min (x :: xs).length
            (pyIndex (atmStrike (x :: xs) price) (x :: xs) + n + 1)
            - (pyIndex (atmStrike (x :: xs) price) (x :: xs) - n)
        · rw [if_pos hmlt, List.getElem?_drop] at hm
          refine ⟨pyIndex (atmStrike (x :: xs) price) (x :: xs) - n + m, hm, ?_, ?_⟩
          · omega
          · omega
        · rw [if_neg hmlt] at hm
          exact absurd hm (by simp)
      · rintro ⟨j, hj, hj1, hj2⟩
        have hjlen : j < (x :: xs).length := (List.getElem?_eq_some.mp hj).1
        rw [hsel]
        apply List.mem_iff_getElem?.mpr
        refine ⟨j - (pyIndex (atmStrike (x :: xs) price) (x :: xs) - n), ?_⟩
        rw [List.getElem?_take, if_pos (by omega), List.getElem?_drop]
        rw [show pyIndex (atmStrike (x :: xs) price) (x :: xs) - n
            + (j - (pyIndex (atmStrike (x :: xs) price) (x :: xs) - n)) = j from by omega]
        exact hj

/-- C7 witness: the spec's concrete instance — strikes 95..105, price
100.4, window radius 2 — where the ATM strike is 100 and the window is
`[98, 99, 100, 101, 102]`; the general theorem applies at this input. -/
theorem strike_window_witness :
    selectStrikes [95, 96, 97, 98, 99, 100, 101, 102, 103, 104, 105] (100.4 : ℚ) 2
      = [98, 99, 100, 101, 102]
    ∧ atmStrike [95, 96, 97, 98, 99, 100, 101, 102, 103, 104, 105] (100.4 : ℚ)
      ∈ [95, 96, 97, 98, 99, 100, 101, 102, 103, 104, 105] := by
  constructor
  · norm_num [selectStrikes, atmStrike, atmIndex, pyMinBy, pyAbs, pyIndex, Nat.min_def]
  · exact (strike_window_selection [95, 96, 97, 98, 99, 100, 101, 102, 103, 104, 105]
      (100.4 : ℚ) 2
      (by norm_num [List.sorted_cons])
      (by simp)
      (by norm_num)).1

end AlaricIBKR
